import Mathlib

/-!
Verification development for the REG trade-journal application (src/index.tsx).

The TypeScript source is shallowly embedded below.  JavaScript numbers are
modelled as exact rationals (ℚ), strings as Lean `String`s processed through
their character lists, thrown exceptions as `Except`, and `Date` values as
days since the Unix epoch (all uses in the source compare timestamps, so the
constant factor of 86400000 ms/day is irrelevant to every comparison).
JavaScript builtins used by the source (`parseFloat`, `parseInt`,
`String.prototype.trim`, `Date.UTC`, ISO date parsing) are modelled from
their ECMAScript semantics.
-/

set_option maxRecDepth 4096

/-! ## JavaScript string and number primitives -/

/-- The JavaScript whitespace characters recognised by `trim`, `parseFloat`,
`parseInt` and the regex class `\s` (restricted to the common ASCII ones,
which is all that the data handled by this application contains). -/
def isJsWs (c : Char) : Bool :=
  c = ' ' ∨ c = '\t' ∨ c = '\n' ∨ c = '\r' ∨ c = '\x0b' ∨ c = '\x0c'

/-- `String.prototype.trim`. -/
def jsTrim (s : String) : String :=
  String.mk (((s.data.dropWhile isJsWs).reverse.dropWhile isJsWs).reverse)

/-- ASCII lower-casing, the fragment of `String.prototype.toLowerCase`
exercised by the CSV header normaliser. -/
def jsToLower (c : Char) : Char :=
  if 'A' ≤ c ∧ c ≤ 'Z' then Char.ofNat (c.toNat + 32) else c

/-- The decimal digit character for `d < 10`. -/
def digCh (d : Nat) : Char := Char.ofNat (48 + d)

/-- Numeric value of a digit character. -/
def digVal (c : Char) : Nat := c.toNat - 48

/-- Decimal digits with explicit fuel (the recursion consumes at least one
unit of the number per step, so `n + 1` units always suffice). -/
def natDigitsF : Nat → Nat → List Char
  | 0, _ => []
  | fuel + 1, n =>
      if n < 10 then [digCh n]
      else natDigitsF fuel (n / 10) ++ [digCh (n % 10)]

/-- Decimal digits of `n`, most significant first (JavaScript's
`Number.prototype.toString` for a nonnegative integer). -/
def natDigits (n : Nat) : List Char := natDigitsF (n + 1) n

/-- Exactly `e` decimal digits of `n % 10 ^ e`, most significant first
(used for the fractional part of a decimal rendering, zero-padded). -/
def padDigits : Nat → Nat → List Char
  | 0, _ => []
  | e + 1, n => padDigits e (n / 10) ++ [digCh (n % 10)]

/-- Left-to-right accumulation of a digit string into a natural number,
exactly as JavaScript's numeric parsers do. -/
def natValOf (ds : List Char) : Nat :=
  ds.foldl (fun a c => 10 * a + digVal c) 0

/-- Split a character list into its maximal leading run of decimal digits
and the remainder. -/
def takeDigits (cs : List Char) : List Char × List Char :=
  (cs.takeWhile Char.isDigit, cs.dropWhile Char.isDigit)

/-- Optional leading sign.  Returns (negative?, rest). -/
def takeSign (cs : List Char) : Bool × List Char :=
  match cs with
  | c :: r => if c = '-' then (true, r) else if c = '+' then (false, r) else (false, cs)
  | [] => (false, cs)

/-- The exponent suffix accepted by `parseFloat` (`e`/`E`, optional sign,
digits); an absent or malformed suffix contributes exponent 0, as the
longest-valid-prefix rule of `parseFloat` would. -/
def parseExpSuffix (cs : List Char) : Int :=
  match cs with
  | c :: r =>
      if c = 'e' ∨ c = 'E' then
        let sg := takeSign r
        let ds := (takeDigits sg.2).1
        if ds = [] then 0
        else if sg.1 then -(natValOf ds : Int) else (natValOf ds : Int)
      else 0
  | [] => 0

/-- ECMAScript `parseFloat(s)`: skip whitespace, optional sign, decimal
mantissa with optional fraction, optional exponent; the longest valid
prefix is converted, `NaN` (modelled `none`) if no digits occur. -/
def parseFloatJS (s : String) : Option ℚ :=
  let cs := s.data.dropWhile isJsWs
  let sg := takeSign cs
  let ipr := takeDigits sg.2
  let fpr := match ipr.2 with
    | c :: r => if c = '.' then takeDigits r else ([], ipr.2)
    | [] => ([], ipr.2)
  if ipr.1 = [] ∧ fpr.1 = [] then none
  else
    let mant : ℚ := (natValOf ipr.1 : ℚ) + (natValOf fpr.1 : ℚ) / (10 : ℚ) ^ fpr.1.length
    let v : ℚ := mant * (10 : ℚ) ^ parseExpSuffix fpr.2
    some (if sg.1 then -v else v)

/-- ECMAScript `parseInt(s, 10)`: skip whitespace, optional sign, maximal
run of decimal digits; `NaN` (modelled `none`) if the run is empty. -/
def parseIntJS (s : String) : Option Int :=
  let cs := s.data.dropWhile isJsWs
  let sg := takeSign cs
  let ds := (takeDigits sg.2).1
  if ds = [] then none
  else some (if sg.1 then -(natValOf ds : Int) else (natValOf ds : Int))

/-- JavaScript `String(n)` for an integer. -/
def intToString (n : Int) : String :=
  String.mk (if n < 0 then '-' :: natDigits n.natAbs else natDigits n.natAbs)

/-- Multiplicity of the factor `p` in `n`, with fuel (`n` units suffice:
each step strictly shrinks the argument). -/
def countFacF : Nat → Nat → Nat → Nat
  | 0, _, _ => 0
  | fuel + 1, p, n =>
      if 2 ≤ p ∧ p ∣ n ∧ 1 < n then countFacF fuel p (n / p) + 1 else 0

/-- Multiplicity of the factor `p` in `n` (0 for `n = 0` or `p < 2`). -/
def countFac (p n : Nat) : Nat := countFacF n p n

/-- The digit rendering of the decimal `mag / 10^e`: a plain integer when
`e = 0`, otherwise integer part, dot, `e` fractional digits. -/
def decChars (mag e : Nat) : List Char :=
  if e = 0 then natDigits mag
  else natDigits (mag / 10 ^ e) ++ '.' :: padDigits e (mag % 10 ^ e)

/-- JavaScript `String(q)` for a number whose exact value is the rational
`q` with a finite decimal expansion: the shortest decimal rendering, which
is what `Number.prototype.toString` prints for such values. -/
def ratToString (q : ℚ) : String :=
  let e := max (countFac 2 q.den) (countFac 5 q.den)
  let m : Int := q.num * (10 : Int) ^ e / (q.den : Int)
  String.mk (if m < 0 then '-' :: decChars m.natAbs e else decChars m.natAbs e)

/-- `q` has a finite decimal expansion (its reduced denominator is of the
form `2^a·5^b`).  Exactly these rationals are rendered faithfully by
`ratToString`. -/
def FiniteDec (q : ℚ) : Prop :=
  q.den = 2 ^ countFac 2 q.den * 5 ^ countFac 5 q.den

instance (q : ℚ) : Decidable (FiniteDec q) := by
  unfold FiniteDec; infer_instance

/-- Index of the last occurrence of `c` in `cs`, `-1` if absent
(JavaScript `lastIndexOf`). -/
def lastIdxOf (c : Char) (cs : List Char) : Int :=
  match cs.reverse.findIdx? (· = c) with
  | none => -1
  | some i => (cs.length : Int) - 1 - (i : Int)

/-- `s.replace(/c/g, '')` for a single character. -/
def eraseAllCh (c : Char) (cs : List Char) : List Char :=
  cs.filter (· ≠ c)

/-- `s.replace(c, d)` for single characters: replaces the first
occurrence only. -/
def replaceFirstCh (c d : Char) : List Char → List Char
  | [] => []
  | x :: r => if x = c then d :: r else x :: replaceFirstCh c d r

/-! ## parseCurrency (src/index.tsx lines 154-179) -/

/-- `parseCurrency` on a string argument.  Mirrors the source: trim; empty
string gives 0; if the last comma follows the last dot the string is in
comma-decimal convention (strip dots, first comma becomes the dot);
otherwise commas are stripped and, if more than one dot remains, the dots
are stripped too; finally `parseFloat`, with `NaN` coerced to 0. -/
def parseCurrencyStr (v : String) : ℚ :=
  let s := jsTrim v
  if s = "" then 0
  else
    let cs := s.data
    let lastComma := lastIdxOf ',' cs
    let lastDot := lastIdxOf '.' cs
    let cs1 :=
      if lastComma > lastDot then
        replaceFirstCh ',' '.' (eraseAllCh '.' cs)
      else
        let noCommas := eraseAllCh ',' cs
        if 1 < noCommas.count '.' then eraseAllCh '.' noCommas else noCommas
    match parseFloatJS (String.mk cs1) with
    | none => 0
    | some q => q

/-- `parseCurrency` applied to a field that may be `undefined` (the
CSV import passes possibly-missing row fields): `String(undefined)` is
the literal string `"undefined"`. -/
def parseCurrencyField (v : Option String) : ℚ :=
  match v with
  | none => parseCurrencyStr "undefined"
  | some s => parseCurrencyStr s

/-- The full `parseCurrency` contract over its `string | number` argument:
a number (`typeof value === 'number'`) is returned unchanged. -/
def parseCurrency : String ⊕ ℚ → ℚ
  | .inl s => parseCurrencyStr s
  | .inr x => x

/-- Modelled from the spec: the normalisation step of §4.1 in the spec's
own words — if the last comma occurs after the last dot, strip all dots
and replace the (first) comma by a dot; otherwise strip all commas and, if
more than one dot remains, strip the dots too.  Used to compare the spec's
description with `parseCurrencyStr`. -/
def specCurrencyNormalize (cs : List Char) : List Char :=
  if lastIdxOf ',' cs > lastIdxOf '.' cs then
    replaceFirstCh ',' '.' (eraseAllCh '.' cs)
  else
    let noCommas := eraseAllCh ',' cs
    if 1 < noCommas.count '.' then eraseAllCh '.' noCommas else noCommas

/-! ## Dates -/

/-- Days since 1970-01-01 of the civil date `(y, m, d)` with `1 ≤ m ≤ 12`
(the standard civil-from-days algorithm; this is what `Date.UTC` computes,
up to the factor 86400000 ms/day that is irrelevant to comparisons). -/
def daysFromCivil (y m d : Int) : Int :=
  let y1 := if m ≤ 2 then y - 1 else y
  let era := y1.fdiv 400
  let yoe := y1 - era * 400
  let mp := if 2 < m then m - 3 else m + 9
  let doy := (153 * mp + 2).fdiv 5 + d - 1
  let doe := yoe * 365 + yoe.fdiv 4 - yoe.fdiv 100 + doy
  era * 146097 + doe - 719468

/-- `Date.UTC(y, m - 1, d)` in days: out-of-range month indices roll over
into adjacent years, and the legacy two-digit-year rule maps 0–99 to
1900–1999. -/
def jsDateUTCDays (y m d : Int) : Int :=
  let y0 := if 0 ≤ y ∧ y ≤ 99 then y + 1900 else y
  let mm := m - 1
  daysFromCivil (y0 + mm.fdiv 12) (mm.emod 12 + 1) d

/-- The regex `/^\d{4}-\d{2}-\d{2}$/` from `getDateAsUTC` and
`formatDateToBR`. -/
def isDateShape (s : String) : Bool :=
  match s.data with
  | [a, b, c, d, h1, e, f, h2, g, h] =>
      a.isDigit ∧ b.isDigit ∧ c.isDigit ∧ d.isDigit ∧ h1 = '-' ∧
      e.isDigit ∧ f.isDigit ∧ h2 = '-' ∧ g.isDigit ∧ h.isDigit
  | _ => false

/-- The `(year, month, day)` numbers of a shape-valid date string
(`dateString.split('-').map(Number)`), `(0,0,0)` otherwise. -/
def parseShapedDate (s : String) : Int × Int × Int :=
  match s.data with
  | [a, b, c, d, _, e, f, _, g, h] =>
      ((natValOf [a, b, c, d] : Int), (natValOf [e, f] : Int), (natValOf [g, h] : Int))
  | _ => (0, 0, 0)

/-- `getDateAsUTC` from `filteredOperations` (src/index.tsx lines 408-416),
in days since the epoch: a string failing the shape check falls back to the
epoch (`new Date(0)`). -/
def getDateAsUTCDays (s : String) : Int :=
  if isDateShape s then
    let p := parseShapedDate s
    jsDateUTCDays p.1 p.2.1 p.2.2
  else 0

/-- Gregorian leap year. -/
def isLeap (y : Int) : Bool := (y % 4 = 0 ∧ y % 100 ≠ 0) ∨ y % 400 = 0

/-- Days in month `m` of year `y` (`1 ≤ m ≤ 12`). -/
def daysInMonth (y m : Int) : Int :=
  if m = 2 then (if isLeap y then 29 else 28)
  else if m = 4 ∨ m = 6 ∨ m = 9 ∨ m = 11 then 30
  else 31

/-- `new Date(dateString).getTime()` in days, for the date-only ISO format
`YYYY-MM-DD` accepted by the ECMAScript Date Time String Format (parsed as
UTC midnight); any other string yields an invalid date (`NaN`, modelled
`none`). -/
def jsDateParse (s : String) : Option Int :=
  if isDateShape s then
    let p := parseShapedDate s
    if 1 ≤ p.2.1 ∧ p.2.1 ≤ 12 ∧ 1 ≤ p.2.2 ∧ p.2.2 ≤ daysInMonth p.1 p.2.1 then
      some (daysFromCivil p.1 p.2.1 p.2.2)
    else none
  else none

/-! ## Data model (the `Operation` interface, src/index.tsx lines 7-22) -/

inductive Side where
  | Buy
  | Sell
deriving DecidableEq, Repr

inductive Status where
  | Gain
  | Loss
  | BreakEven
deriving DecidableEq, Repr

/-- One logged trade.  `struct` embeds the source's `structure` field
(`structure` is reserved in Lean). -/
structure Operation where
  id : Int
  asset : String
  opNumber : Int
  side : Side
  date : String
  lots : Int
  entryPrice : ℚ
  exitPrice : ℚ
  points : ℚ
  result : ℚ
  status : Status
  region : String
  struct : String
  trigger : String
deriving DecidableEq, Repr

/-- `result > 0 ? 'Gain' : result < 0 ? 'Loss' : 'Break-even'`
(src/index.tsx line 379). -/
def computeStatus (result : ℚ) : Status :=
  if 0 < result then .Gain else if result < 0 then .Loss else .BreakEven

/-- The form fields consumed by `handleSubmit`.  `region` and `trigger`
hold the strings resolved by the add-new-value logic (which only selects
which string is stored); `struct` embeds the source's `structure`. -/
structure FormState where
  asset : String
  side : Side
  date : String
  lots : String
  entryPrice : String
  exitPrice : String
  pointValue : String
  region : String
  struct : String
  trigger : String
deriving Repr

/-- `Math.max(...operations.map(op => op.opNumber))` over a nonempty
list. -/
def maxOpNumber (ops : List Operation) : Int :=
  match ops.map (·.opNumber) with
  | [] => 0
  | x :: xs => xs.foldl max x

/-- `handleSubmit` (src/index.tsx lines 350-390) acting on the operations
list.  `now` stands for `Date.now()`; `editingId` is the editing state.
`parseCurrency` never returns `NaN` (it coerces it to 0), so of the guard
`isNaN(lots) || isNaN(entryPrice) || ... || lots <= 0` only the two `lots`
conditions can fire.  In the edit branch the source dereferences
`operations.find(...)!`; when no record has the edited id (unreachable from
the UI) that line throws, leaving the list unchanged, which is how the
`none` case is rendered here. -/
def handleSubmit (now : Int) (editingId : Option Int) (form : FormState)
    (ops : List Operation) : List Operation :=
  match parseIntJS form.lots with
  | none => ops
  | some lots =>
    if lots ≤ 0 then ops
    else
      let entryPrice := parseCurrencyStr form.entryPrice
      let exitPrice := parseCurrencyStr form.exitPrice
      let pointValue := parseCurrencyStr form.pointValue
      let points := match form.side with
        | .Buy => exitPrice - entryPrice
        | .Sell => entryPrice - exitPrice
      let result := points * (lots : ℚ) * pointValue
      let status := computeStatus result
      match editingId with
      | some eid =>
        match ops.find? (fun op => op.id = eid) with
        | some old =>
          let updatedOp : Operation :=
            { id := eid, asset := form.asset, opNumber := old.opNumber,
              side := form.side, date := form.date, lots := lots,
              entryPrice := entryPrice, exitPrice := exitPrice,
              points := points, result := result, status := status,
              region := form.region, struct := form.struct,
              trigger := form.trigger }
          ops.map (fun op => if op.id = eid then updatedOp else op)
        | none => ops
      | none =>
        let newOp : Operation :=
          { id := now, asset := form.asset,
            opNumber := (if 0 < ops.length then maxOpNumber ops else 0) + 1,
            side := form.side, date := form.date, lots := lots,
            entryPrice := entryPrice, exitPrice := exitPrice,
            points := points, result := result, status := status,
            region := form.region, struct := form.struct,
            trigger := form.trigger }
        ops ++ [newOp]

/-- Ordering by display sequence number, the comparator
`(a, b) => a.opNumber - b.opNumber` used by `confirmDelete` and by the
merge after an import.  (`Array.prototype.sort` is stable, as is
`List.insertionSort`.) -/
def opNumLe (a b : Operation) : Prop := a.opNumber ≤ b.opNumber

instance : DecidableRel opNumLe := fun a b => by
  unfold opNumLe; infer_instance

instance : IsTotal Operation opNumLe :=
  ⟨fun a b => Int.le_total a.opNumber b.opNumber⟩

instance : IsTrans Operation opNumLe :=
  ⟨fun _ _ _ h1 h2 => le_trans h1 h2⟩

/-- `.map((op, idx) => ({ ...op, opNumber: idx + 1 }))` unrolled with an
explicit starting index. -/
def renumber (k : Int) : List Operation → List Operation
  | [] => []
  | op :: rest => { op with opNumber := k } :: renumber (k + 1) rest

/-- `confirmDelete` (src/index.tsx lines 400-404): drop the record with the
given id, sort the remainder by sequence number, renumber 1..N. -/
def confirmDelete (ops : List Operation) (delId : Int) : List Operation :=
  renumber 1 (List.insertionSort opNumLe (ops.filter (fun op => op.id ≠ delId)))

/-! ## Time-window filtering (src/index.tsx lines 406-446) -/

inductive FilterType where
  | all
  | today
  | week
  | month
deriving DecidableEq, Repr

/-- `nowUTC` in days: `Date.UTC(today.getUTCFullYear(), today.getUTCMonth(),
today.getUTCDate())` for the current civil UTC date `(y, m, d)` (`m`
1-based here; the source passes the 0-based `getUTCMonth()`). -/
def nowUTCDays (y m d : Int) : Int := jsDateUTCDays y m d

/-- `startOfWeekUTC` in days: `nowUTC` minus `getUTCDay()` days, where
`getUTCDay()` is `(days + 4) mod 7` (day 0 = 1970-01-01 was a Thursday). -/
def weekStartDays (y m d : Int) : Int :=
  nowUTCDays y m d - (nowUTCDays y m d + 4).emod 7

/-- `startOfMonthUTC` in days:
`Date.UTC(nowUTC.getUTCFullYear(), nowUTC.getUTCMonth(), 1)`. -/
def monthStartDays (y m : Int) : Int := jsDateUTCDays y m 1

/-- `filteredOperations` (src/index.tsx lines 406-446), parametrised by the
current civil UTC date `(y, m, d)`. -/
def filteredOperations (filter : FilterType) (y m d : Int)
    (ops : List Operation) : List Operation :=
  match filter with
  | .all => ops
  | .today => ops.filter (fun op => getDateAsUTCDays op.date = nowUTCDays y m d)
  | .week => ops.filter (fun op => weekStartDays y m d ≤ getDateAsUTCDays op.date)
  | .month => ops.filter (fun op => monthStartDays y m ≤ getDateAsUTCDays op.date)

/-! ## Cumulative chart series (src/index.tsx lines 479-486, 224-228) -/

/-- The comparator `(a, b) => new Date(a.date).getTime() -
new Date(b.date).getTime() || a.opNumber - b.opNumber` as a Boolean
"less-or-equal": when either date is invalid the difference is `NaN`, which
is falsy, so the `||` falls through to the sequence-number difference, just
as it does when the difference is 0. -/
def cumLe (a b : Operation) : Bool :=
  match jsDateParse a.date, jsDateParse b.date with
  | some ta, some tb =>
      if ta = tb then decide (a.opNumber ≤ b.opNumber) else decide (ta < tb)
  | _, _ => decide (a.opNumber ≤ b.opNumber)

def cumRel (a b : Operation) : Prop := cumLe a b = true

instance : DecidableRel cumRel := fun a b => by
  unfold cumRel; infer_instance

/-- The (date, running-total) pairs: `cumulative += op.result` mapped over
the sorted operations. -/
def runningTotals (c : ℚ) : List Operation → List (String × ℚ)
  | [] => []
  | op :: rest => (op.date, c + op.result) :: runningTotals (c + op.result) rest

/-- `cumulativeChartData` (src/index.tsx lines 479-486). -/
def cumulativeChartData (ops : List Operation) : List (String × ℚ) :=
  runningTotals 0 (List.insertionSort cumRel ops)

/-- The `LineChart` guard (src/index.tsx line 226): fewer than two data
points renders the "not enough data" placeholder instead of a chart. -/
def lineChartNoData (data : List (String × ℚ)) : Bool :=
  data.length < 2

/-! ## CSV export (src/index.tsx lines 488-506) and import (508-577)

`Papa.unparse` / `Papa.parse` (an external library) serialise a field
matrix to CSV text and back; their composition is modelled as the identity
on the matrix, so a CSV file is a list of rows, each row a list of
(header, value) string pairs. -/

def Row : Type := List (String × String)

def sideStr : Side → String
  | .Buy => "Buy"
  | .Sell => "Sell"

def statusStr : Status → String
  | .Gain => "Gain"
  | .Loss => "Loss"
  | .BreakEven => "Break-even"

/-- One exported record: `Papa.unparse` writes every field of the
`Operation` object, numbers through `String(·)`. -/
def opToRow (op : Operation) : Row :=
  [("id", intToString op.id),
   ("asset", op.asset),
   ("opNumber", intToString op.opNumber),
   ("side", sideStr op.side),
   ("date", op.date),
   ("lots", intToString op.lots),
   ("entryPrice", ratToString op.entryPrice),
   ("exitPrice", ratToString op.exitPrice),
   ("points", ratToString op.points),
   ("result", ratToString op.result),
   ("status", statusStr op.status),
   ("region", op.region),
   ("structure", op.struct),
   ("trigger", op.trigger)]

/-- `exportToCSV` (src/index.tsx lines 488-506): always dumps the full
unfiltered record list. -/
def exportToCSV (ops : List Operation) : List Row :=
  ops.map opToRow

/-- `transformHeader`: lower-case, then strip whitespace and
underscores. -/
def transformHeader (h : String) : String :=
  String.mk ((h.data.map jsToLower).filter (fun c => ¬ (isJsWs c ∨ c = '_')))

/-- The `headerMapping` alias table (src/index.tsx lines 517-531). -/
def headerAliases : List (String × String) :=
  [("opnumber", "opNumber"), ("op#", "opNumber"), ("nro.daoperação", "opNumber"),
   ("asset", "asset"), ("ativo", "asset"),
   ("side", "side"), ("lado", "side"),
   ("date", "date"), ("data", "date"),
   ("lots", "lots"), ("lotes", "lots"),
   ("entryprice", "entryPrice"), ("preçodeentrada", "entryPrice"), ("entrada", "entryPrice"),
   ("exitprice", "exitPrice"), ("preçodesaída", "exitPrice"), ("saída", "exitPrice"),
   ("points", "points"), ("pontos", "points"),
   ("result", "result"), ("resultado", "result"),
   ("status", "status"),
   ("region", "region"), ("região", "region"),
   ("structure", "structure"), ("estrutura", "structure"),
   ("trigger", "trigger"), ("gatilho", "trigger")]

/-- `normalizedRow[canon]`: headers go through `transformHeader` (applied
by the Papa config) and the alias table; with duplicate aliases the last
assignment wins, hence the reversed lookup. -/
def rowField (row : Row) (canon : String) : Option String :=
  (((row.map (fun kv => (transformHeader kv.1, kv.2))).filterMap
      (fun kv => match headerAliases.lookup kv.1 with
        | some c => some (c, kv.2)
        | none => none)).reverse).lookup canon

/-- `normalizedRow[canon] || dflt`: for strings, only `""` (and a missing
field, i.e. `undefined`) is falsy. -/
def rowFieldOr (row : Row) (canon dflt : String) : String :=
  match rowField row canon with
  | none => dflt
  | some s => if s = "" then dflt else s

/-- The error text `Invalid number in row ${index + 2}.`. -/
def importErrMsg (n : Nat) : String :=
  "Invalid number in row " ++ intToString (n : Int) ++ "."

/-- Coercion of one CSV row (src/index.tsx lines 533-563).  `today` is
`new Date().toISOString().split('T')[0]`, `now` is `Date.now()`. -/
def importRow (today : String) (now : Int) (index : Nat) (row : Row) :
    Except String Operation :=
  let opNumber? := parseIntJS (rowFieldOr row "opNumber" "0")
  let lots? := parseIntJS (rowFieldOr row "lots" "0")
  match opNumber?, lots? with
  | some opNumber, some lots =>
      .ok { id := now + index,
            asset := rowFieldOr row "asset" "",
            opNumber := opNumber,
            side := match rowField row "side" with
              | some "Buy" => .Buy
              | some "Sell" => .Sell
              | _ => .Buy,
            date := rowFieldOr row "date" today,
            lots := lots,
            entryPrice := parseCurrencyField (rowField row "entryPrice"),
            exitPrice := parseCurrencyField (rowField row "exitPrice"),
            points := parseCurrencyField (rowField row "points"),
            result := parseCurrencyField (rowField row "result"),
            status := match rowField row "status" with
              | some "Gain" => .Gain
              | some "Loss" => .Loss
              | some "Break-even" => .BreakEven
              | _ => .BreakEven,
            region := rowFieldOr row "region" "",
            struct := rowFieldOr row "structure" "",
            trigger := rowFieldOr row "trigger" "" }
  | _, _ => .error (importErrMsg (index + 2))

/-- `results.data.map(...)`: rows are coerced in order and the first
throw aborts the whole batch. -/
def importRows (today : String) (now : Int) (index : Nat) :
    List Row → Except String (List Operation)
  | [] => .ok []
  | row :: rest =>
      match importRow today now index row with
      | .error e => .error e
      | .ok op =>
          match importRows today now (index + 1) rest with
          | .error e => .error e
          | .ok opsTail => .ok (op :: opsTail)

/-- `handleFileImport` (src/index.tsx lines 508-577) acting on the
operations list: on success the imported batch is appended and the whole
list re-sorted by sequence number; a thrown row error is caught and leaves
the list untouched. -/
def handleFileImport (ops : List Operation) (rows : List Row)
    (today : String) (now : Int) : List Operation :=
  match importRows today now 0 rows with
  | .error _ => ops
  | .ok imported => List.insertionSort opNumLe (ops ++ imported)

/-! ## Digit-string lemmas -/

theorem digCh_isDigit {d : Nat} (h : d < 10) : (digCh d).isDigit = true := by
  interval_cases d <;> decide

theorem digVal_digCh {d : Nat} (h : d < 10) : digVal (digCh d) = d := by
  interval_cases d <;> decide

theorem natDigitsF_all_digits :
    ∀ fuel n, n < fuel → ∀ c ∈ natDigitsF fuel n, c.isDigit = true
  | 0, n, h => absurd h (by omega)
  | fuel + 1, n, h => by
      rw [natDigitsF]
      by_cases h10 : n < 10
      · rw [if_pos h10]
        intro c hc
        rcases List.mem_singleton.mp hc with rfl
        exact digCh_isDigit h10
      · rw [if_neg h10]
        intro c hc
        rcases List.mem_append.mp hc with h1 | h1
        · have hlt : n / 10 < n := Nat.div_lt_self (by omega) (by omega)
          exact natDigitsF_all_digits fuel (n / 10) (by omega) c h1
        · rcases List.mem_singleton.mp h1 with rfl
          exact digCh_isDigit (Nat.mod_lt _ (by omega))

theorem natDigits_all_digits (n : Nat) : ∀ c ∈ natDigits n, c.isDigit = true :=
  natDigitsF_all_digits (n + 1) n (by omega)

theorem natDigits_ne_nil (n : Nat) : natDigits n ≠ [] := by
  rw [natDigits, natDigitsF]
  by_cases h : n < 10 <;> simp [h]

theorem padDigits_all_digits (e n : Nat) : ∀ c ∈ padDigits e n, c.isDigit = true := by
  induction e generalizing n with
  | zero => simp [padDigits]
  | succ e ih =>
    intro c hc
    rcases List.mem_append.mp hc with h1 | h1
    · exact ih _ c h1
    · rcases List.mem_singleton.mp h1 with rfl
      exact digCh_isDigit (Nat.mod_lt _ (by omega))

theorem padDigits_length (e n : Nat) : (padDigits e n).length = e := by
  induction e generalizing n with
  | zero => rfl
  | succ e ih => simp [padDigits, ih]

theorem natValOf_from (ds : List Char) (a : Nat) :
    ds.foldl (fun a c => 10 * a + digVal c) a = a * 10 ^ ds.length + natValOf ds := by
  induction ds generalizing a with
  | nil => simp [natValOf]
  | cons c r ih =>
    have hL : (c :: r).foldl (fun a c => 10 * a + digVal c) a
        = r.foldl (fun a c => 10 * a + digVal c) (10 * a + digVal c) := rfl
    have hR : natValOf (c :: r)
        = r.foldl (fun a c => 10 * a + digVal c) (10 * 0 + digVal c) := rfl
    rw [hL, hR, ih, ih, List.length_cons]
    ring

theorem natValOf_append (xs ys : List Char) :
    natValOf (xs ++ ys) = natValOf xs * 10 ^ ys.length + natValOf ys := by
  show (xs ++ ys).foldl _ 0 = _
  rw [List.foldl_append, natValOf_from]
  rfl

theorem natValOf_natDigitsF :
    ∀ fuel n, n < fuel → natValOf (natDigitsF fuel n) = n
  | 0, n, h => absurd h (by omega)
  | fuel + 1, n, h => by
      rw [natDigitsF]
      by_cases h10 : n < 10
      · rw [if_pos h10]
        simp [natValOf, digVal_digCh h10]
      · rw [if_neg h10]
        have hlt : n / 10 < n := Nat.div_lt_self (by omega) (by omega)
        rw [natValOf_append, natValOf_natDigitsF fuel (n / 10) (by omega)]
        have hone : natValOf [digCh (n % 10)] = n % 10 := by
          simp [natValOf, digVal_digCh (Nat.mod_lt n (show 0 < 10 by omega))]
        rw [hone]
        simp only [List.length_singleton, pow_one]
        omega

theorem natValOf_natDigits (n : Nat) : natValOf (natDigits n) = n :=
  natValOf_natDigitsF (n + 1) n (by omega)

theorem natValOf_padDigits (e n : Nat) : natValOf (padDigits e n) = n % 10 ^ e := by
  induction e generalizing n with
  | zero => simp [padDigits, natValOf, Nat.mod_one]
  | succ e ih =>
    rw [padDigits, natValOf_append, ih]
    have h1 : natValOf [digCh (n % 10)] = n % 10 := by
      simp [natValOf, digVal_digCh (Nat.mod_lt n (show 0 < 10 by omega))]
    rw [h1]
    simp only [List.length_singleton, pow_one]
    rw [pow_succ', Nat.mod_mul]
    ring

theorem ws_not_digit {c : Char} (h : isJsWs c = true) : c.isDigit = false := by
  simp only [isJsWs, decide_eq_true_eq] at h
  rcases h with rfl | rfl | rfl | rfl | rfl | rfl <;> decide

theorem isDigit_not_ws {c : Char} (h : c.isDigit = true) : isJsWs c = false := by
  cases hw : isJsWs c with
  | false => rfl
  | true => rw [ws_not_digit hw] at h; cases h

theorem takeWhile_digits_append (ds rest : List Char)
    (h : ∀ c ∈ ds, c.isDigit = true) :
    (ds ++ rest).takeWhile Char.isDigit = ds ++ rest.takeWhile Char.isDigit ∧
    (ds ++ rest).dropWhile Char.isDigit = rest.dropWhile Char.isDigit := by
  induction ds with
  | nil => simp
  | cons c r ih =>
    have hc : c.isDigit = true := h c (by simp)
    have ihr := ih (fun x hx => h x (List.mem_cons_of_mem _ hx))
    constructor
    · simp [List.takeWhile_cons, hc, ihr.1]
    · simp [List.dropWhile_cons, hc, ihr.2]

theorem dropWhile_not_head {p : Char → Bool} :
    ∀ {cs : List Char}, (∀ c ∈ cs, p c = false) → cs.dropWhile p = cs
  | [], _ => rfl
  | c :: r, h => by simp [List.dropWhile_cons, h c (by simp)]

theorem data_mk (cs : List Char) : (String.mk cs).data = cs := rfl

theorem takeSign_digit {c : Char} (h : c.isDigit = true) (r : List Char) :
    takeSign (c :: r) = (false, c :: r) := by
  have h1 : c ≠ '-' := by rintro rfl; exact absurd h (by decide)
  have h2 : c ≠ '+' := by rintro rfl; exact absurd h (by decide)
  simp [takeSign, h1, h2]

theorem takeDigits_all (ds : List Char) (h : ∀ c ∈ ds, c.isDigit = true) :
    takeDigits ds = (ds, []) := by
  have h1 := takeWhile_digits_append ds [] h
  simp only [List.append_nil, List.takeWhile_nil, List.dropWhile_nil] at h1
  simp [takeDigits, h1.1, h1.2]

theorem dropWhile_ws_digit {c : Char} (h : c.isDigit = true) (r : List Char) :
    (c :: r).dropWhile isJsWs = c :: r := by
  rw [List.dropWhile_cons, isDigit_not_ws h]
  simp

theorem natDigits_head_digit (n : Nat) :
    ∃ c r, natDigits n = c :: r ∧ c.isDigit = true := by
  cases h : natDigits n with
  | nil => exact absurd h (natDigits_ne_nil n)
  | cons c r =>
      exact ⟨c, r, rfl, natDigits_all_digits n c (by rw [h]; simp)⟩

theorem parseFloat_core (mag e : Nat) (neg : Bool) (cs0 : List Char)
    (hws : cs0.dropWhile isJsWs = cs0)
    (hsg : takeSign cs0 = (neg, decChars mag e)) :
    parseFloatJS (String.mk cs0) =
      some (if neg then -((mag : ℚ) / 10 ^ e) else (mag : ℚ) / 10 ^ e) := by
  by_cases he : e = 0
  · subst he
    rw [decChars, if_pos rfl] at hsg
    have h3 : takeDigits (natDigits mag) = (natDigits mag, []) :=
      takeDigits_all _ (natDigits_all_digits mag)
    have hne := natDigits_ne_nil mag
    simp only [parseFloatJS, data_mk, hws, hsg, h3, hne]
    simp only [parseExpSuffix, natValOf_natDigits]
    have hv : natValOf ([] : List Char) = 0 := rfl
    simp [hne, hv, zpow_zero]
  · rw [decChars, if_neg he] at hsg
    have hI := natDigits_all_digits (mag / 10 ^ e)
    have hP := padDigits_all_digits e (mag % 10 ^ e)
    have htk := takeWhile_digits_append (natDigits (mag / 10 ^ e))
      ('.' :: padDigits e (mag % 10 ^ e)) hI
    have hdot : ('.' : Char).isDigit = false := by decide
    have htk1 : (natDigits (mag / 10 ^ e) ++ '.' :: padDigits e (mag % 10 ^ e)).takeWhile
        Char.isDigit = natDigits (mag / 10 ^ e) := by
      rw [htk.1, List.takeWhile_cons, hdot]
      simp
    have htk2 : (natDigits (mag / 10 ^ e) ++ '.' :: padDigits e (mag % 10 ^ e)).dropWhile
        Char.isDigit = '.' :: padDigits e (mag % 10 ^ e) := by
      rw [htk.2, List.dropWhile_cons, hdot]
      simp
    have hfr : takeDigits (padDigits e (mag % 10 ^ e)) = (padDigits e (mag % 10 ^ e), []) :=
      takeDigits_all _ hP
    have hipr : takeDigits (natDigits (mag / 10 ^ e) ++ '.' :: padDigits e (mag % 10 ^ e))
        = (natDigits (mag / 10 ^ e), '.' :: padDigits e (mag % 10 ^ e)) := by
      simp [takeDigits, htk1, htk2]
    have hne := natDigits_ne_nil (mag / 10 ^ e)
    have hv : natValOf (padDigits e (mag % 10 ^ e)) = mag % 10 ^ e := by
      rw [natValOf_padDigits]
      exact Nat.mod_mod_of_dvd _ (dvd_refl _)
    simp only [parseFloatJS, data_mk, hws, hsg, hipr, hfr]
    simp only [hne, hv, natValOf_natDigits, padDigits_length, parseExpSuffix]
    have hq : ((mag / 10 ^ e : Nat) : ℚ) + ((mag % 10 ^ e : Nat) : ℚ) / (10 : ℚ) ^ e
        = (mag : ℚ) / 10 ^ e := by
      have hsplit : (10 : ℚ) ^ e * ((mag / 10 ^ e : Nat) : ℚ) + ((mag % 10 ^ e : Nat) : ℚ)
          = (mag : ℚ) := by
        have h := Nat.div_add_mod mag (10 ^ e)
        calc (10 : ℚ) ^ e * ((mag / 10 ^ e : Nat) : ℚ) + ((mag % 10 ^ e : Nat) : ℚ)
            = ((10 ^ e * (mag / 10 ^ e) + mag % 10 ^ e : Nat) : ℚ) := by push_cast; ring
          _ = (mag : ℚ) := by rw [h]
      have hpow : (10 : ℚ) ^ e ≠ 0 := by positivity
      field_simp
      linarith [hsplit]
    cases neg with
    | false => simpa [hv, padDigits_length] using hq
    | true =>
        simp only [eq_self_iff_true, if_true, false_and, if_false]
        rw [hv, padDigits_length, ← hq]
        congr 1
        ring

theorem parseFloat_decChars_sign (mag e : Nat) (neg : Bool) :
    parseFloatJS (String.mk (if neg then '-' :: decChars mag e else decChars mag e)) =
      some (if neg then -((mag : ℚ) / 10 ^ e) else (mag : ℚ) / 10 ^ e) := by
  obtain ⟨c, r, hcr, hc⟩ : ∃ c r, decChars mag e = c :: r ∧ c.isDigit = true := by
    by_cases he : e = 0
    · rw [decChars, if_pos he]
      exact natDigits_head_digit mag
    · rw [decChars, if_neg he]
      obtain ⟨c, r, hcr, hc⟩ := natDigits_head_digit (mag / 10 ^ e)
      exact ⟨c, r ++ '.' :: padDigits e (mag % 10 ^ e), by rw [hcr]; simp, hc⟩
  have hwsm : isJsWs '-' = false := by decide
  cases neg with
  | false =>
      rw [if_neg (by simp)]
      apply parseFloat_core
      · rw [hcr]
        exact dropWhile_ws_digit hc r
      · rw [hcr]
        rw [takeSign_digit hc r]
  | true =>
      rw [if_pos rfl]
      apply parseFloat_core
      · rw [List.dropWhile_cons, hwsm]
        simp
      · simp [takeSign]

theorem parseIntJS_intToString (n : Int) : parseIntJS (intToString n) = some n := by
  obtain ⟨c, r, hcr, hc⟩ := natDigits_head_digit n.natAbs
  have hds : takeDigits (natDigits n.natAbs) = (natDigits n.natAbs, []) :=
    takeDigits_all _ (natDigits_all_digits _)
  have hne := natDigits_ne_nil n.natAbs
  by_cases hneg : n < 0
  · have h1 : (intToString n).data = '-' :: natDigits n.natAbs := by
      rw [intToString, if_pos hneg]
    have h2 : ('-' :: natDigits n.natAbs).dropWhile isJsWs = '-' :: natDigits n.natAbs := by
      have hwsm : isJsWs '-' = false := by decide
      rw [List.dropWhile_cons, hwsm]
      simp
    have h3 : takeSign ('-' :: natDigits n.natAbs) = (true, natDigits n.natAbs) := by
      simp [takeSign]
    simp only [parseIntJS, h1, h2, h3, hds, hne, natValOf_natDigits]
    simp only [hne, if_false, if_true]
    congr 1
    omega
  · have h1 : (intToString n).data = natDigits n.natAbs := by
      rw [intToString, if_neg hneg]
    have h2 : (natDigits n.natAbs).dropWhile isJsWs = natDigits n.natAbs := by
      rw [hcr]
      exact dropWhile_ws_digit hc r
    have h3 : takeSign (natDigits n.natAbs) = (false, natDigits n.natAbs) := by
      rw [hcr]
      rw [takeSign_digit hc r]
    simp only [parseIntJS, h1, h2, h3, hds, hne, natValOf_natDigits]
    simp only [hne, if_false]
    rw [if_neg (by simp)]
    congr 1
    omega

theorem not_mem_of_digits {ds : List Char} (h : ∀ c ∈ ds, c.isDigit = true)
    {x : Char} (hx : x.isDigit = false) : x ∉ ds := fun hm => by
  rw [h x hm] at hx
  cases hx

theorem decChars_classes (mag e : Nat) :
    ∀ c ∈ decChars mag e, c.isDigit = true ∨ c = '.' := by
  intro c hc
  rw [decChars] at hc
  by_cases he : e = 0
  · rw [if_pos he] at hc
    exact Or.inl (natDigits_all_digits _ c hc)
  · rw [if_neg he] at hc
    rcases List.mem_append.mp hc with h | h
    · exact Or.inl (natDigits_all_digits _ c h)
    · rcases List.mem_cons.mp h with rfl | h
      · exact Or.inr rfl
      · exact Or.inl (padDigits_all_digits _ _ c h)

theorem decChars_dot_count (mag e : Nat) :
    (decChars mag e).count '.' ≤ 1 := by
  rw [decChars]
  by_cases he : e = 0
  · rw [if_pos he]
    have h0 : ('.' : Char) ∉ natDigits mag :=
      not_mem_of_digits (natDigits_all_digits mag) (by decide)
    rw [List.count_eq_zero.mpr h0]
    omega
  · rw [if_neg he]
    rw [List.count_append]
    have h0 : ('.' : Char) ∉ natDigits (mag / 10 ^ e) :=
      not_mem_of_digits (natDigits_all_digits _) (by decide)
    have h1 : ('.' : Char) ∉ padDigits e (mag % 10 ^ e) :=
      not_mem_of_digits (padDigits_all_digits _ _) (by decide)
    rw [List.count_eq_zero.mpr h0, List.count_cons, List.count_eq_zero.mpr h1]
    simp

theorem findIdx?_bound {p : Char → Bool} :
    ∀ (l : List Char) (i j : Nat), l.findIdx? p i = some j → j < i + l.length
  | [], i, j, h => by rw [List.findIdx?_nil] at h; cases h
  | x :: xs, i, j, h => by
      rw [List.findIdx?_cons] at h
      by_cases hp : p x = true
      · rw [if_pos hp] at h
        cases h
        simp
      · rw [if_neg hp] at h
        have := findIdx?_bound xs (i + 1) j h
        simp only [List.length_cons]
        omega

theorem findIdx?_none_of_not_mem {c : Char} :
    ∀ (l : List Char) (i : Nat), c ∉ l → l.findIdx? (fun x => x = c) i = none
  | [], _, _ => List.findIdx?_nil
  | x :: xs, i, h => by
      rw [List.findIdx?_cons]
      have hx : x ≠ c := fun hc => h (by rw [hc]; simp)
      rw [if_neg (by simp [hx])]
      exact findIdx?_none_of_not_mem xs (i + 1) (fun hc => h (List.mem_cons_of_mem _ hc))

theorem lastIdxOf_of_not_mem {c : Char} {cs : List Char} (h : c ∉ cs) :
    lastIdxOf c cs = -1 := by
  unfold lastIdxOf
  rw [findIdx?_none_of_not_mem _ _ (by simpa using h)]

theorem neg_one_le_lastIdxOf (c : Char) (cs : List Char) : -1 ≤ lastIdxOf c cs := by
  unfold lastIdxOf
  cases h : cs.reverse.findIdx? (fun x => x = c) with
  | none => simp
  | some i =>
      have hb := findIdx?_bound _ 0 i h
      rw [List.length_reverse] at hb
      simp only []
      omega

theorem jsTrim_of_no_ws {cs : List Char} (h : ∀ c ∈ cs, isJsWs c = false) :
    jsTrim (String.mk cs) = String.mk cs := by
  rw [jsTrim, data_mk, dropWhile_not_head h,
    dropWhile_not_head (fun c hc => h c (List.mem_reverse.mp hc)), List.reverse_reverse]

theorem mk_ne_empty {c : Char} {r : List Char} : String.mk (c :: r) ≠ "" := by
  intro h
  have h2 := congrArg String.data h
  simp only [data_mk] at h2
  cases h2

theorem decChars_ne_nil (mag e : Nat) : decChars mag e ≠ [] := by
  rw [decChars]
  by_cases he : e = 0
  · rw [if_pos he]
    exact natDigits_ne_nil mag
  · rw [if_neg he]
    simp

theorem parseCurrency_decChars (mag e : Nat) (neg : Bool) :
    parseCurrencyStr (String.mk (if neg then '-' :: decChars mag e else decChars mag e)) =
      (if neg then -((mag : ℚ) / 10 ^ e) else (mag : ℚ) / 10 ^ e) := by
  set L := if neg then '-' :: decChars mag e else decChars mag e with hL
  have hsub : ∀ c ∈ L, c ∈ decChars mag e ∨ c = '-' := by
    intro c hc
    rw [hL] at hc
    cases neg with
    | false => exact Or.inl (by simpa using hc)
    | true =>
        rcases List.mem_cons.mp (by simpa using hc) with rfl | hc2
        · exact Or.inr rfl
        · exact Or.inl hc2
  have hclass : ∀ c ∈ L, c.isDigit = true ∨ c = '.' ∨ c = '-' := by
    intro c hc
    rcases hsub c hc with h | rfl
    · rcases decChars_classes mag e c h with h2 | h2
      · exact Or.inl h2
      · exact Or.inr (Or.inl h2)
    · exact Or.inr (Or.inr rfl)
  have hnws : ∀ c ∈ L, isJsWs c = false := by
    intro c hc
    rcases hclass c hc with h | rfl | rfl
    · exact isDigit_not_ws h
    · decide
    · decide
  have hnc : (',' : Char) ∉ L := by
    intro hm
    rcases hclass ',' hm with h | h | h
    · exact absurd h (by decide)
    · exact absurd h (by decide)
    · exact absurd h (by decide)
  obtain ⟨c0, r0, hLcons⟩ : ∃ c0 r0, L = c0 :: r0 := by
    rw [hL]
    cases neg with
    | false =>
        cases hd : decChars mag e with
        | nil => exact absurd hd (decChars_ne_nil mag e)
        | cons c r => exact ⟨c, r, by simp [hd]⟩
    | true => exact ⟨'-', decChars mag e, by simp⟩
  have htrim : jsTrim (String.mk L) = String.mk L := jsTrim_of_no_ws hnws
  have hnes : ¬ (String.mk L = "") := by
    rw [hLcons]
    exact mk_ne_empty
  have hcomma : lastIdxOf ',' L = -1 := lastIdxOf_of_not_mem hnc
  have hcond : ¬ (lastIdxOf ',' L > lastIdxOf '.' L) := by
    rw [hcomma]
    have := neg_one_le_lastIdxOf '.' L
    omega
  have herase : eraseAllCh ',' L = L := by
    rw [eraseAllCh]
    apply List.filter_eq_self.mpr
    intro a ha
    simp only [ne_eq, decide_eq_true_eq]
    rintro rfl
    exact hnc ha
  have hcount : ¬ (1 < L.count '.') := by
    have hd := decChars_dot_count mag e
    rw [hL]
    cases neg with
    | false => simpa using hd
    | true =>
        simp only [eq_self_iff_true, if_true, List.count_cons]
        have hnd : (('-' : Char) == '.') = false := by decide
        simp only [hnd, if_false]
        simpa using hd
  have hpf := parseFloat_decChars_sign mag e neg
  rw [← hL] at hpf
  rw [parseCurrencyStr]
  simp only [htrim, data_mk]
  rw [if_neg hnes, if_neg hcond, herase, if_neg hcount, hpf]

theorem parseCurrency_int_dec (m : Int) (e : Nat) :
    parseCurrencyStr
        (String.mk (if m < 0 then '-' :: decChars m.natAbs e else decChars m.natAbs e)) =
      (m : ℚ) / 10 ^ e := by
  by_cases hneg : m < 0
  · rw [if_pos hneg]
    have hstep := parseCurrency_decChars m.natAbs e true
    simp only [eq_self_iff_true, if_true] at hstep
    rw [hstep]
    have habs : ((m.natAbs : ℚ)) = -(m : ℚ) := by
      rw [Int.cast_natAbs]
      have h1 : |m| = -m := abs_of_neg hneg
      rw [h1]
      push_cast
      rfl
    rw [habs]
    ring
  · rw [if_neg hneg]
    have hstep := parseCurrency_decChars m.natAbs e false
    simp only [Bool.false_eq_true, if_false] at hstep
    rw [hstep]
    have habs : ((m.natAbs : ℚ)) = (m : ℚ) := by
      rw [Int.cast_natAbs]
      have h1 : |m| = m := abs_of_nonneg (by omega)
      rw [h1]
    rw [habs]

theorem parseCurrency_ratToString (q : ℚ) (hfd : FiniteDec q) :
    parseCurrencyStr (ratToString q) = q := by
  have hden0 : (q.den : Int) ≠ 0 := by
    have := q.den_pos
    omega
  have hN : q.den ∣ 10 ^ max (countFac 2 q.den) (countFac 5 q.den) := by
    have h1 : (2 : Nat) ^ countFac 2 q.den * 5 ^ countFac 5 q.den ∣
        2 ^ max (countFac 2 q.den) (countFac 5 q.den) *
          5 ^ max (countFac 2 q.den) (countFac 5 q.den) :=
      mul_dvd_mul (pow_dvd_pow 2 (le_max_left _ _)) (pow_dvd_pow 5 (le_max_right _ _))
    have h2 : (2 : Nat) ^ max (countFac 2 q.den) (countFac 5 q.den) *
        5 ^ max (countFac 2 q.den) (countFac 5 q.den) =
        10 ^ max (countFac 2 q.den) (countFac 5 q.den) := by
      rw [← mul_pow]
      norm_num
    rw [← h2]
    calc q.den = 2 ^ countFac 2 q.den * 5 ^ countFac 5 q.den := hfd
      _ ∣ _ := h1
  have hdvd : (q.den : Int) ∣ (10 : Int) ^ max (countFac 2 q.den) (countFac 5 q.den) := by
    exact_mod_cast Int.natCast_dvd_natCast.mpr hN
  have hdvd2 : (q.den : Int) ∣
      q.num * (10 : Int) ^ max (countFac 2 q.den) (countFac 5 q.den) :=
    Dvd.dvd.mul_left hdvd q.num
  have hmm : (q.den : Int) *
      (q.num * (10 : Int) ^ max (countFac 2 q.den) (countFac 5 q.den) / (q.den : Int)) =
      q.num * (10 : Int) ^ max (countFac 2 q.den) (countFac 5 q.den) :=
    Int.mul_ediv_cancel' hdvd2
  have hval : ((q.num * (10 : Int) ^ max (countFac 2 q.den) (countFac 5 q.den) /
      (q.den : Int) : Int) : ℚ) / (10 : ℚ) ^ max (countFac 2 q.den) (countFac 5 q.den)
      = q := by
    have h10 : ((10 : ℚ) ^ max (countFac 2 q.den) (countFac 5 q.den)) ≠ 0 := by positivity
    have hdq : (q.den : ℚ) ≠ 0 := by
      have := q.den_pos
      exact_mod_cast Nat.pos_iff_ne_zero.mp this
    have hcast : (q.den : ℚ) * ((q.num * (10 : Int) ^ max (countFac 2 q.den)
        (countFac 5 q.den) / (q.den : Int) : Int) : ℚ) =
        (q.num : ℚ) * (10 : ℚ) ^ max (countFac 2 q.den) (countFac 5 q.den) := by
      have h3 := congrArg (fun z : Int => (z : ℚ)) hmm
      push_cast at h3
      exact h3
    have hnum : (q.num : ℚ) = q * (q.den : ℚ) :=
      (div_eq_iff hdq).mp (Rat.num_div_den q)
    rw [div_eq_iff h10]
    apply mul_left_cancel₀ hdq
    rw [hcast, hnum]
    ring
  calc parseCurrencyStr (ratToString q)
      = ((q.num * (10 : Int) ^ max (countFac 2 q.den) (countFac 5 q.den) /
          (q.den : Int) : Int) : ℚ) /
          (10 : ℚ) ^ max (countFac 2 q.den) (countFac 5 q.den) :=
        parseCurrency_int_dec _ _
    _ = q := hval

/-! ## Invariant predicates and auxiliary relations used by the claims -/

/-- The status/result equivalence of the data-model invariant. -/
def statusInv (op : Operation) : Prop :=
  (op.status = Status.Gain ↔ 0 < op.result) ∧
  (op.status = Status.Loss ↔ op.result < 0) ∧
  (op.status = Status.BreakEven ↔ op.result = 0)

/-- All records carry a positive quantity of lots. -/
def lotsPos (ops : List Operation) : Prop := ∀ op ∈ ops, 0 < op.lots

/-- Equality of every field except the display sequence number. -/
def sameExceptOpNumber (a b : Operation) : Prop :=
  a.id = b.id ∧ a.asset = b.asset ∧ a.side = b.side ∧ a.date = b.date ∧
  a.lots = b.lots ∧ a.entryPrice = b.entryPrice ∧ a.exitPrice = b.exitPrice ∧
  a.points = b.points ∧ a.result = b.result ∧ a.status = b.status ∧
  a.region = b.region ∧ a.struct = b.struct ∧ a.trigger = b.trigger

/-- Sum of the `result` fields. -/
def sumResults (l : List Operation) : ℚ := (l.map (·.result)).sum

/-- The date sort key used by the cumulative series (invalid dates share
the key 0, but the claims only quantify over parseable dates). -/
def dateKey (op : Operation) : Int := (jsDateParse op.date).getD 0

/-- Lexicographic (date, sequence-number) order: the order the spec
describes for the cumulative series. -/
def cumLe2 (a b : Operation) : Prop :=
  dateKey a < dateKey b ∨ (dateKey a = dateKey b ∧ a.opNumber ≤ b.opNumber)

instance : DecidableRel cumLe2 := fun a b => by
  unfold cumLe2; infer_instance

instance : IsTotal Operation cumLe2 :=
  ⟨fun a b => by unfold cumLe2; omega⟩

instance : IsTrans Operation cumLe2 :=
  ⟨fun a b c h1 h2 => by unfold cumLe2 at *; omega⟩

/-- A CSV row whose sequence-number or quantity field fails integer
parsing (the condition of the import's throw). -/
def badRowB (r : Row) : Bool :=
  (parseIntJS (rowFieldOr r "opNumber" "0")).isNone ||
  (parseIntJS (rowFieldOr r "lots" "0")).isNone

/-! ## Date lemmas -/

theorem daysFromCivil_day (y m d : Int) :
    daysFromCivil y m d = daysFromCivil y m 1 + (d - 1) := by
  by_cases h : m ≤ 2
  · simp only [daysFromCivil, if_pos h]
    ring
  · simp only [daysFromCivil, if_neg h]
    ring

theorem jsDateUTCDays_day (y m d : Int) :
    jsDateUTCDays y m d = jsDateUTCDays y m 1 + (d - 1) := by
  simp only [jsDateUTCDays]
  rw [daysFromCivil_day]

theorem getDateAsUTCDays_bad {s : String} (h : isDateShape s = false) :
    getDateAsUTCDays s = 0 := by
  rw [getDateAsUTCDays, h]
  simp

theorem emod7_bounds (x : Int) : 0 ≤ x.emod 7 ∧ x.emod 7 < 7 :=
  ⟨Int.emod_nonneg x (by norm_num), Int.emod_lt_of_pos x (by norm_num)⟩

/-! ## Claim C9 -/

/-- C9: the currency parser is total — an already-numeric input is
returned unchanged, and the empty string, an all-whitespace string and an
unparseable string such as "abc" all yield 0 (no exception path exists:
`parseCurrency` is a total function by construction). -/
theorem claim_C9 :
    (∀ x : ℚ, parseCurrency (Sum.inr x) = x) ∧
    parseCurrency (Sum.inl "") = 0 ∧
    parseCurrency (Sum.inl "   ") = 0 ∧
    parseCurrency (Sum.inl "abc") = 0 :=
  ⟨fun _ => rfl, by with_unfolding_all rfl, by with_unfolding_all rfl,
    by with_unfolding_all rfl⟩

/-! ## Claim C6 -/

/-- C6: `parseCurrency` follows exactly the normalisation algorithm stated
in the spec (comma-decimal when the last comma follows the last dot,
otherwise commas stripped and multiple dots stripped), and on the two
conventions of the same number it returns the same value:
`parse("1.234,56") = parse("1,234.56") = 1234.56`. -/
theorem claim_C6 :
    (∀ s : String, parseCurrencyStr s =
      (if jsTrim s = "" then 0
       else
        match parseFloatJS (String.mk (specCurrencyNormalize (jsTrim s).data)) with
        | none => 0
        | some q => q)) ∧
    parseCurrencyStr "1.234,56" = 1234.56 ∧
    parseCurrencyStr "1,234.56" = 1234.56 :=
  ⟨fun _ => rfl, by with_unfolding_all rfl, by with_unfolding_all rfl⟩

/-! ## Claim C4 -/

/-- A sample record dated 2026-12-25, used against the week filter on
2026-10-07 (a Wednesday). -/
def c4op : Operation :=
  { id := 1, asset := "WINFUT", opNumber := 1, side := .Buy,
    date := "2026-12-25", lots := 1, entryPrice := 0, exitPrice := 0,
    points := 0, result := 0, status := .BreakEven, region := "",
    struct := "", trigger := "" }

/-- C4 counterexample: on 2026-10-07 a record dated 2026-12-25 — strictly
after today — still matches the week filter, so the claimed upper bound
"≤ today" does not hold of the code. -/
theorem claim_C4_cex :
    filteredOperations FilterType.week 2026 10 7 [c4op] = [c4op] ∧
    nowUTCDays 2026 10 7 < getDateAsUTCDays c4op.date :=
  ⟨by with_unfolding_all rfl, of_decide_eq_true (by with_unfolding_all rfl)⟩

/-- C4 (amended): a record matches the week filter iff its date, as UTC
midnight (epoch fallback for malformed dates), is ≥ the most recent Sunday
— with no upper bound.  In particular a record dated exactly on that
Sunday matches and one dated the prior Saturday does not. -/
theorem claim_C4 :
    ∀ (y m d : Int) (ops : List Operation) (op : Operation),
      op ∈ filteredOperations FilterType.week y m d ops ↔
        op ∈ ops ∧ weekStartDays y m d ≤ getDateAsUTCDays op.date := by
  intro y m d ops op
  simp [filteredOperations, List.mem_filter]

/-! ## Claim C10 -/

/-- C10: a record whose date string fails the `YYYY-MM-DD` shape check is
treated as the Unix epoch by the filter code (no exception), so whenever
the current UTC date is in 1971 or later (at least 365 days past the
epoch) the record is excluded by the today, week and month filters while
remaining visible under the all filter. -/
theorem claim_C10 :
    ∀ (y m d : Int) (ops : List Operation) (op : Operation),
      op ∈ ops →
      isDateShape op.date = false →
      1 ≤ m → m ≤ 12 → 1 ≤ d → d ≤ 31 →
      365 ≤ nowUTCDays y m d →
      op ∉ filteredOperations FilterType.today y m d ops ∧
      op ∉ filteredOperations FilterType.week y m d ops ∧
      op ∉ filteredOperations FilterType.month y m d ops ∧
      op ∈ filteredOperations FilterType.all y m d ops := by
  intro y m d ops op hmem hshape hm1 hm2 hd1 hd2 h365
  have hzero : getDateAsUTCDays op.date = 0 := getDateAsUTCDays_bad hshape
  have hweekB := emod7_bounds (nowUTCDays y m d + 4)
  have hmonth : monthStartDays y m = nowUTCDays y m d - (d - 1) := by
    rw [monthStartDays, nowUTCDays, jsDateUTCDays_day y m d]
    ring
  refine ⟨?_, ?_, ?_, hmem⟩
  · intro hin
    rw [filteredOperations] at hin
    rcases (List.mem_filter.mp hin) with ⟨_, hp⟩
    rw [hzero] at hp
    simp only [decide_eq_true_eq] at hp
    omega
  · intro hin
    rw [filteredOperations] at hin
    rcases (List.mem_filter.mp hin) with ⟨_, hp⟩
    rw [hzero] at hp
    simp only [decide_eq_true_eq] at hp
    rw [weekStartDays] at hp
    omega
  · intro hin
    rw [filteredOperations] at hin
    rcases (List.mem_filter.mp hin) with ⟨_, hp⟩
    rw [hzero] at hp
    simp only [decide_eq_true_eq] at hp
    rw [hmonth] at hp
    omega

/-- The record with a malformed date used to witness C10. -/
def c10op : Operation :=
  { id := 1, asset := "WIN", opNumber := 1, side := .Buy,
    date := "25/12/2026", lots := 1, entryPrice := 0, exitPrice := 0,
    points := 0, result := 0, status := .BreakEven, region := "",
    struct := "", trigger := "" }

/-- C10 witness: on 2026-10-11 the malformed-dated record is excluded
from today/week/month and visible under all. -/
theorem claim_C10_witness :
    c10op ∉ filteredOperations FilterType.today 2026 10 11 [c10op] ∧
    c10op ∉ filteredOperations FilterType.week 2026 10 11 [c10op] ∧
    c10op ∉ filteredOperations FilterType.month 2026 10 11 [c10op] ∧
    c10op ∈ filteredOperations FilterType.all 2026 10 11 [c10op] :=
  claim_C10 2026 10 11 [c10op] c10op (List.mem_singleton.mpr rfl)
    (by with_unfolding_all rfl) (by norm_num) (by norm_num) (by norm_num)
    (by norm_num) (of_decide_eq_true (by with_unfolding_all rfl))

/-! ## Claim C8 -/

theorem renumber_length (k : Int) (l : List Operation) :
    (renumber k l).length = l.length := by
  induction l generalizing k with
  | nil => rfl
  | cons op rest ih => simp [renumber, ih]

theorem renumber_get (k : Int) :
    ∀ (l : List Operation) (i : Nat) (h : i < l.length),
      (renumber k l).get ⟨i, by rw [renumber_length]; exact h⟩ =
        { l.get ⟨i, h⟩ with opNumber := k + i } := by
  intro l
  induction l generalizing k with
  | nil => intro i h; cases h
  | cons op rest ih =>
      intro i h
      cases i with
      | zero => simp [renumber]
      | succ j =>
          have hj : j < rest.length := by
            simp only [List.length_cons] at h
            omega
          have := ih (k + 1) j hj
          simp only [renumber, List.get_cons_succ]
          rw [this]
          have harith : k + 1 + (j : Int) = k + ((j : Nat) + 1 : Nat) := by
            push_cast
            ring
          rw [harith]

/-- C8: deleting a record keeps exactly the other records, reorders them
by their old sequence numbers (a sorted permutation) and renumbers them
contiguously 1..N, leaving every other field unchanged. -/
theorem claim_C8 :
    ∀ (ops : List Operation) (delId : Int),
      (confirmDelete ops delId).length =
        (ops.filter (fun op => op.id ≠ delId)).length ∧
      (List.insertionSort opNumLe (ops.filter (fun op => op.id ≠ delId))).Perm
        (ops.filter (fun op => op.id ≠ delId)) ∧
      List.Sorted opNumLe
        (List.insertionSort opNumLe (ops.filter (fun op => op.id ≠ delId))) ∧
      (∀ i (h : i < (confirmDelete ops delId).length),
        ((confirmDelete ops delId).get ⟨i, h⟩).opNumber = (i : Int) + 1) ∧
      (∀ i (h : i < (confirmDelete ops delId).length)
          (h2 : i < (List.insertionSort opNumLe
            (ops.filter (fun op => op.id ≠ delId))).length),
        sameExceptOpNumber ((confirmDelete ops delId).get ⟨i, h⟩)
          ((List.insertionSort opNumLe
            (ops.filter (fun op => op.id ≠ delId))).get ⟨i, h2⟩)) := by
  intro ops delId
  refine ⟨?_, List.perm_insertionSort _ _, List.sorted_insertionSort _ _, ?_, ?_⟩
  · rw [confirmDelete, renumber_length, List.length_insertionSort]
  · intro i h
    have h2 : i < (List.insertionSort opNumLe
        (ops.filter (fun op => op.id ≠ delId))).length := by
      rw [confirmDelete, renumber_length] at h
      exact h
    have hget := renumber_get 1
      (List.insertionSort opNumLe (ops.filter (fun op => op.id ≠ delId))) i h2
    calc ((confirmDelete ops delId).get ⟨i, h⟩).opNumber
        = ((renumber 1 (List.insertionSort opNumLe
            (ops.filter (fun op => op.id ≠ delId)))).get
              ⟨i, by rw [renumber_length]; exact h2⟩).opNumber := rfl
      _ = 1 + (i : Int) := by rw [hget]
      _ = (i : Int) + 1 := by ring
  · intro i h h2
    have hget := renumber_get 1
      (List.insertionSort opNumLe (ops.filter (fun op => op.id ≠ delId))) i h2
    have heq : (confirmDelete ops delId).get ⟨i, h⟩ =
        { (List.insertionSort opNumLe (ops.filter (fun op => op.id ≠ delId))).get
            ⟨i, h2⟩ with opNumber := 1 + (i : Int) } := hget
    rw [heq]
    exact ⟨rfl, rfl, rfl, rfl, rfl, rfl, rfl, rfl, rfl, rfl, rfl, rfl, rfl⟩

/-- Two sample records for the C8 witness. -/
def c8a : Operation :=
  { id := 10, asset := "A", opNumber := 1, side := .Buy, date := "2026-01-02",
    lots := 1, entryPrice := 0, exitPrice := 0, points := 0, result := 0,
    status := .BreakEven, region := "", struct := "", trigger := "" }

def c8b : Operation :=
  { id := 20, asset := "B", opNumber := 2, side := .Sell, date := "2026-01-03",
    lots := 2, entryPrice := 0, exitPrice := 0, points := 0, result := 0,
    status := .BreakEven, region := "", struct := "", trigger := "" }

/-- C8 witness: deleting the first of two records at a concrete state,
the surviving record gets sequence number 1. -/
theorem claim_C8_witness :
    ∃ h0 : 0 < (confirmDelete [c8a, c8b] 10).length,
      ((confirmDelete [c8a, c8b] 10).get ⟨0, h0⟩).opNumber = (0 : Int) + 1 := by
  have hlen : (confirmDelete [c8a, c8b] 10).length =
      (([c8a, c8b].filter (fun op => op.id ≠ 10)).length) := (claim_C8 [c8a, c8b] 10).1
  have hflen : (([c8a, c8b].filter (fun op => op.id ≠ 10)).length) = 1 := by
    with_unfolding_all rfl
  have h0 : 0 < (confirmDelete [c8a, c8b] 10).length := by omega
  exact ⟨h0, (claim_C8 [c8a, c8b] 10).2.2.2.1 0 h0⟩

/-! ## Claim C7 -/

theorem runningTotals_length (c : ℚ) (l : List Operation) :
    (runningTotals c l).length = l.length := by
  induction l generalizing c with
  | nil => rfl
  | cons op rest ih => simp [runningTotals, ih]

theorem runningTotals_get (c : ℚ) :
    ∀ (l : List Operation) (i : Nat) (h : i < l.length),
      (runningTotals c l).get ⟨i, by rw [runningTotals_length]; exact h⟩ =
        ((l.get ⟨i, h⟩).date, c + sumResults (l.take (i + 1))) := by
  intro l
  induction l generalizing c with
  | nil => intro i h; cases h
  | cons op rest ih =>
      intro i h
      cases i with
      | zero => simp [runningTotals, sumResults]
      | succ j =>
          have hj : j < rest.length := by
            simp only [List.length_cons] at h
            omega
          have hrec := ih (c + op.result) j hj
          simp only [runningTotals, List.get_cons_succ]
          rw [hrec]
          simp only [List.take_succ_cons, sumResults, List.map_cons, List.sum_cons]
          congr 1
          ring

theorem orderedInsert_congr {r s : Operation → Operation → Prop}
    [DecidableRel r] [DecidableRel s] (a : Operation) :
    ∀ (l : List Operation), (∀ b ∈ l, (r a b ↔ s a b)) →
      List.orderedInsert r a l = List.orderedInsert s a l := by
  intro l
  induction l with
  | nil => intro _; rfl
  | cons b t ih =>
      intro hcong
      have hb := hcong b (by simp)
      by_cases hr : r a b
      · rw [List.orderedInsert, if_pos hr, List.orderedInsert, if_pos (hb.mp hr)]
      · rw [List.orderedInsert, if_neg hr, List.orderedInsert,
          if_neg (fun hs => hr (hb.mpr hs))]
        rw [ih (fun x hx => hcong x (List.mem_cons_of_mem _ hx))]

theorem insertionSort_congr {r s : Operation → Operation → Prop}
    [DecidableRel r] [DecidableRel s] :
    ∀ (l : List Operation), (∀ a ∈ l, ∀ b ∈ l, (r a b ↔ s a b)) →
      List.insertionSort r l = List.insertionSort s l := by
  intro l
  induction l with
  | nil => intro _; rfl
  | cons a t ih =>
      intro hcong
      have ht := ih (fun x hx y hy =>
        hcong x (List.mem_cons_of_mem _ hx) y (List.mem_cons_of_mem _ hy))
      simp only [List.insertionSort]
      rw [ht]
      apply orderedInsert_congr
      intro b hb
      have hbt : b ∈ t := by
        have := (List.mem_insertionSort s).mp hb
        exact this
      exact hcong a (by simp) b (List.mem_cons_of_mem _ hbt)

theorem cumRel_iff_cumLe2 {a b : Operation}
    (ha : (jsDateParse a.date).isSome = true)
    (hb : (jsDateParse b.date).isSome = true) :
    cumRel a b ↔ cumLe2 a b := by
  obtain ⟨ta, hta⟩ := Option.isSome_iff_exists.mp ha
  obtain ⟨tb, htb⟩ := Option.isSome_iff_exists.mp hb
  unfold cumRel cumLe cumLe2 dateKey
  rw [hta, htb]
  simp only [Option.getD_some]
  by_cases heq : ta = tb
  · rw [if_pos heq]
    subst heq
    simp
  · rw [if_neg heq]
    constructor
    · intro h
      left
      exact of_decide_eq_true h
    · intro h
      rcases h with h | ⟨h1, _⟩
      · exact decide_eq_true h
      · exact absurd h1 heq

/-- C7: over a record collection with well-formed dates the cumulative
series is built from the records sorted lexicographically by (date,
sequence number): the sorted list is a permutation of the input, each
series point carries the running sum of `result` up to its position, and
the chart reports insufficient data exactly when fewer than two points
exist.  On the concrete results [100, -40, 60] the series values are
[100, 60, 120]. -/
theorem claim_C7 :
    (∀ ops : List Operation,
      (∀ op ∈ ops, (jsDateParse op.date).isSome = true) →
      (List.insertionSort cumRel ops).Perm ops ∧
      List.Sorted cumLe2 (List.insertionSort cumRel ops) ∧
      (∀ i (hi : i < (cumulativeChartData ops).length)
          (hi2 : i < (List.insertionSort cumRel ops).length),
        (cumulativeChartData ops).get ⟨i, hi⟩ =
          (((List.insertionSort cumRel ops).get ⟨i, hi2⟩).date,
            sumResults ((List.insertionSort cumRel ops).take (i + 1)))) ∧
      (lineChartNoData (cumulativeChartData ops) = true ↔ ops.length < 2)) ∧
    (cumulativeChartData
        [{ id := 1, asset := "A", opNumber := 1, side := .Buy,
           date := "2026-01-02", lots := 1, entryPrice := 0, exitPrice := 0,
           points := 0, result := 100, status := .Gain, region := "",
           struct := "", trigger := "" },
         { id := 2, asset := "A", opNumber := 2, side := .Buy,
           date := "2026-01-02", lots := 1, entryPrice := 0, exitPrice := 0,
           points := 0, result := -40, status := .Loss, region := "",
           struct := "", trigger := "" },
         { id := 3, asset := "A", opNumber := 3, side := .Buy,
           date := "2026-01-02", lots := 1, entryPrice := 0, exitPrice := 0,
           points := 0, result := 60, status := .Gain, region := "",
           struct := "", trigger := "" }]).map Prod.snd = [100, 60, 120] := by
  constructor
  · intro ops hdates
    have hsortEq : List.insertionSort cumRel ops = List.insertionSort cumLe2 ops :=
      insertionSort_congr ops (fun a hx b hy =>
        cumRel_iff_cumLe2 (hdates a hx) (hdates b hy))
    refine ⟨List.perm_insertionSort _ _, ?_, ?_, ?_⟩
    · rw [hsortEq]
      exact List.sorted_insertionSort _ _
    · intro i hi hi2
      have hi3 : i < (List.insertionSort cumRel ops).length := hi2
      have := runningTotals_get 0 (List.insertionSort cumRel ops) i hi3
      calc (cumulativeChartData ops).get ⟨i, hi⟩
          = (runningTotals 0 (List.insertionSort cumRel ops)).get
              ⟨i, by rw [runningTotals_length]; exact hi3⟩ := rfl
        _ = (((List.insertionSort cumRel ops).get ⟨i, hi3⟩).date,
              0 + sumResults ((List.insertionSort cumRel ops).take (i + 1))) := this
        _ = (((List.insertionSort cumRel ops).get ⟨i, hi2⟩).date,
              sumResults ((List.insertionSort cumRel ops).take (i + 1))) := by
            rw [zero_add]
    · rw [lineChartNoData]
      have hlen : (cumulativeChartData ops).length = ops.length := by
        rw [cumulativeChartData, runningTotals_length, List.length_insertionSort]
      rw [hlen]
      simp
  · with_unfolding_all rfl

/-- Concrete two-record state for the C7 witness. -/
def c7ops : List Operation :=
  [{ id := 1, asset := "A", opNumber := 2, side := .Buy, date := "2026-01-03",
     lots := 1, entryPrice := 0, exitPrice := 0, points := 0, result := 5,
     status := .Gain, region := "", struct := "", trigger := "" },
   { id := 2, asset := "A", opNumber := 1, side := .Buy, date := "2026-01-02",
     lots := 1, entryPrice := 0, exitPrice := 0, points := 0, result := -3,
     status := .Loss, region := "", struct := "", trigger := "" }]

/-- C7 witness: the general statement applied to a concrete two-record
collection with well-formed dates. -/
theorem claim_C7_witness :
    (List.insertionSort cumRel c7ops).Perm c7ops ∧
    List.Sorted cumLe2 (List.insertionSort cumRel c7ops) ∧
    (∀ i (hi : i < (cumulativeChartData c7ops).length)
        (hi2 : i < (List.insertionSort cumRel c7ops).length),
      (cumulativeChartData c7ops).get ⟨i, hi⟩ =
        (((List.insertionSort cumRel c7ops).get ⟨i, hi2⟩).date,
          sumResults ((List.insertionSort cumRel c7ops).take (i + 1)))) ∧
    (lineChartNoData (cumulativeChartData c7ops) = true ↔ c7ops.length < 2) :=
  claim_C7.1 c7ops (by
    intro op hop
    rcases List.mem_cons.mp hop with rfl | hop2
    · with_unfolding_all rfl
    · rcases List.mem_cons.mp hop2 with rfl | hop3
      · with_unfolding_all rfl
      · cases hop3)

/-! ## Claim C1 -/

theorem computeStatus_inv (x : ℚ) :
    (computeStatus x = Status.Gain ↔ 0 < x) ∧
    (computeStatus x = Status.Loss ↔ x < 0) ∧
    (computeStatus x = Status.BreakEven ↔ x = 0) := by
  unfold computeStatus
  split_ifs with h1 h2
  · refine ⟨⟨fun _ => h1, fun _ => rfl⟩, ⟨?_, ?_⟩, ⟨?_, ?_⟩⟩
    · intro hc; exact absurd hc (by simp)
    · intro hc; exfalso; linarith
    · intro hc; exact absurd hc (by simp)
    · intro hc; exfalso; rw [hc] at h1; exact lt_irrefl 0 h1
  · refine ⟨⟨?_, ?_⟩, ⟨fun _ => h2, fun _ => rfl⟩, ⟨?_, ?_⟩⟩
    · intro hc; exact absurd hc (by simp)
    · intro hc; exfalso; linarith
    · intro hc; exact absurd hc (by simp)
    · intro hc; exfalso; rw [hc] at h2; exact lt_irrefl 0 h2
  · have hx : x = 0 := le_antisymm (not_lt.mp h1) (not_lt.mp h2)
    refine ⟨⟨?_, ?_⟩, ⟨?_, ?_⟩, ⟨fun _ => hx, fun _ => rfl⟩⟩
    · intro hc; exact absurd hc (by simp)
    · intro hc; exfalso; rw [hx] at hc; exact lt_irrefl 0 hc
    · intro hc; exact absurd hc (by simp)
    · intro hc; exfalso; rw [hx] at hc; exact lt_irrefl 0 hc

/-- C1 (amended): the Gain/Loss/Break-even ⟺ sign-of-result equivalence
holds for every record after a form submission — both the create path and
the edit/update path recompute `status` from `result` — provided it held
of the previous state.  (CSV import, by contrast, copies `status` verbatim
from the file: see the counterexample.) -/
theorem claim_C1 :
    ∀ (now : Int) (editingId : Option Int) (form : FormState)
      (ops : List Operation),
      (∀ op ∈ ops, statusInv op) →
      ∀ op ∈ handleSubmit now editingId form ops, statusInv op := by
  intro now eid form ops hinv op hop
  simp only [handleSubmit] at hop
  cases hl : parseIntJS form.lots with
  | none =>
      rw [hl] at hop
      exact hinv op hop
  | some lots =>
      rw [hl] at hop
      simp only [] at hop
      by_cases hpos : lots ≤ 0
      · rw [if_pos hpos] at hop
        exact hinv op hop
      · rw [if_neg hpos] at hop
        cases eid with
        | none =>
            rcases List.mem_append.mp hop with h | h
            · exact hinv op h
            · rcases List.mem_singleton.mp h with rfl
              exact ⟨(computeStatus_inv _).1, (computeStatus_inv _).2.1,
                (computeStatus_inv _).2.2⟩
        | some i =>
            dsimp only [] at hop
            cases hf : List.find? (fun o => decide (o.id = i)) ops with
            | none =>
                rw [hf] at hop
                exact hinv op hop
            | some old =>
                rw [hf] at hop
                rcases List.mem_map.mp hop with ⟨o, ho, heq⟩
                by_cases hid : o.id = i
                · rw [if_pos hid] at heq
                  rw [← heq]
                  exact ⟨(computeStatus_inv _).1, (computeStatus_inv _).2.1,
                    (computeStatus_inv _).2.2⟩
                · rw [if_neg hid] at heq
                  rw [← heq]
                  exact hinv o ho

/-- A CSV row carrying an inconsistent status: status Gain with a negative
result. -/
def c1row : Row := [("opnumber", "1"), ("lots", "1"), ("status", "Gain"),
  ("result", "-5")]

/-- C1 counterexample: importing a row whose status column says Gain while
its result column is −5 produces a record with `status = Gain` and
`result < 0`, so the equivalence does not hold immediately after the
CSV import path. -/
theorem claim_C1_cex :
    ∃ op ∈ handleFileImport [] [c1row] "2026-01-01" 0,
      op.status = Status.Gain ∧ op.result < 0 :=
  of_decide_eq_true (by with_unfolding_all rfl)

/-- Form input used by the C1 witness. -/
def c1form : FormState :=
  { asset := "WIN", side := .Buy, date := "2026-01-02", lots := "1",
    entryPrice := "10", exitPrice := "12", pointValue := "1",
    region := "Cheap", struct := "A-B-C", trigger := "Lock" }

/-- C1 witness: the record created by a concrete form submission over the
empty state satisfies the status/result equivalence. -/
theorem claim_C1_witness :
    statusInv ((handleSubmit 5 none c1form []).getD 0 c8a) := by
  have hlen : (handleSubmit 5 none c1form []).length = 1 := by
    with_unfolding_all rfl
  have hmem : (handleSubmit 5 none c1form []).getD 0 c8a ∈
      handleSubmit 5 none c1form [] := by
    cases hl : handleSubmit 5 none c1form [] with
    | nil => rw [hl] at hlen; cases hlen
    | cons x t =>
        simp [List.getD]
  exact claim_C1 5 none c1form [] (fun op h => absurd h (List.not_mem_nil op))
    _ hmem

/-! ## Claim C3 -/

theorem renumber_mem :
    ∀ (k : Int) (l : List Operation) (op : Operation), op ∈ renumber k l →
      ∃ o ∈ l, op = { o with opNumber := op.opNumber } := by
  intro k l
  induction l generalizing k with
  | nil => intro op h; cases h
  | cons o rest ih =>
      intro op h
      rcases List.mem_cons.mp h with rfl | h2
      · exact ⟨o, by simp, rfl⟩
      · rcases ih (k + 1) op h2 with ⟨o2, ho2, heq⟩
        exact ⟨o2, List.mem_cons_of_mem _ ho2, heq⟩

/-- C3 (amended): positivity of the lots quantity is preserved by form
submission (create and update both guard `lots <= 0`) and by deletion
(which only renumbers); CSV import checks lots only for being a parsable
integer, so it can introduce records with `lots ≤ 0` — see the
counterexample. -/
theorem claim_C3 :
    ∀ (now : Int) (editingId : Option Int) (form : FormState)
      (ops : List Operation) (delId : Int),
      lotsPos ops →
      lotsPos (handleSubmit now editingId form ops) ∧
      lotsPos (confirmDelete ops delId) := by
  intro now eid form ops delId hpos
  constructor
  · intro op hop
    simp only [handleSubmit] at hop
    cases hl : parseIntJS form.lots with
    | none =>
        rw [hl] at hop
        exact hpos op hop
    | some lots =>
        rw [hl] at hop
        dsimp only [] at hop
        by_cases hneg : lots ≤ 0
        · rw [if_pos hneg] at hop
          exact hpos op hop
        · rw [if_neg hneg] at hop
          cases eid with
          | none =>
              rcases List.mem_append.mp hop with h | h
              · exact hpos op h
              · rcases List.mem_singleton.mp h with rfl
                simpa using by omega
          | some i =>
              dsimp only [] at hop
              cases hf : List.find? (fun o => decide (o.id = i)) ops with
              | none =>
                  rw [hf] at hop
                  exact hpos op hop
              | some old =>
                  rw [hf] at hop
                  rcases List.mem_map.mp hop with ⟨o, ho, heq⟩
                  by_cases hid : o.id = i
                  · rw [if_pos hid] at heq
                    rw [← heq]
                    simpa using by omega
                  · rw [if_neg hid] at heq
                    rw [← heq]
                    exact hpos o ho
  · intro op hop
    rcases renumber_mem 1 _ op hop with ⟨o, ho, heq⟩
    have ho2 : o ∈ ops.filter (fun x => x.id ≠ delId) :=
      (List.mem_insertionSort opNumLe).mp ho
    have ho3 : o ∈ ops := (List.mem_filter.mp ho2).1
    have : op.lots = o.lots := by rw [heq]
    rw [this]
    exact hpos o ho3

/-- A CSV row whose quantity column is 0. -/
def c3row : Row := [("opnumber", "1"), ("lots", "0"), ("asset", "WIN")]

/-- C3 counterexample: importing a row with lots "0" succeeds (0 parses as
an integer) and leaves a record with `lots = 0` in the operations list,
violating the claimed quantity > 0 invariant after import. -/
theorem claim_C3_cex :
    ∃ op ∈ handleFileImport [] [c3row] "2026-01-01" 0, op.lots = 0 :=
  of_decide_eq_true (by with_unfolding_all rfl)

/-- C3 witness: the amended statement applied concretely — a create
submission over a one-record state plus a deletion from it. -/
theorem claim_C3_witness :
    lotsPos (handleSubmit 5 none c1form [c8a]) ∧
    lotsPos (confirmDelete [c8a] 99) :=
  claim_C3 5 none c1form [c8a] 99 (fun op h => by
    rcases List.mem_singleton.mp h with rfl
    exact of_decide_eq_true (by with_unfolding_all rfl))

/-! ## Claim C2 -/

theorem importRow_bad {today : String} {now : Int} {i : Nat} {r : Row}
    (h : badRowB r = true) :
    importRow today now i r = Except.error (importErrMsg (i + 2)) := by
  rw [importRow]
  rw [badRowB, Bool.or_eq_true] at h
  cases h1 : parseIntJS (rowFieldOr r "opNumber" "0") with
  | none => cases h2 : parseIntJS (rowFieldOr r "lots" "0") <;> rfl
  | some a =>
      cases h2 : parseIntJS (rowFieldOr r "lots" "0") with
      | none => rfl
      | some b =>
          exfalso
          rcases h with h | h
          · rw [h1] at h
            cases h
          · rw [h2] at h
            cases h

theorem importRow_good {today : String} {now : Int} {i : Nat} {r : Row}
    (h : badRowB r = false) :
    ∃ op, importRow today now i r = Except.ok op := by
  rw [badRowB, Bool.or_eq_false_iff] at h
  obtain ⟨ha, hb⟩ := h
  cases h1 : parseIntJS (rowFieldOr r "opNumber" "0") with
  | none =>
      rw [h1] at ha
      simp at ha
  | some a =>
      cases h2 : parseIntJS (rowFieldOr r "lots" "0") with
      | none =>
          rw [h2] at hb
          simp at hb
      | some b =>
          cases hr : importRow today now i r with
          | ok op => exact ⟨op, rfl⟩
          | error e =>
              exfalso
              simp only [importRow, h1, h2] at hr
              cases hr

theorem importRows_first_bad (today : String) (now : Int) :
    ∀ (rows : List Row) (start : Nat),
      (∃ r ∈ rows, badRowB r = true) →
      ∃ j, ∃ hj : j < rows.length,
        badRowB (rows.get ⟨j, hj⟩) = true ∧
        (∀ k (hk : k < j), badRowB (rows.get ⟨k, Nat.lt_trans hk hj⟩) = false) ∧
        importRows today now start rows =
          Except.error (importErrMsg (start + j + 2)) := by
  intro rows
  induction rows with
  | nil =>
      intro start h
      rcases h with ⟨r, hr, _⟩
      cases hr
  | cons row rest ih =>
      intro start h
      cases hbad : badRowB row with
      | true =>
          refine ⟨0, by simp, hbad, fun k hk => absurd hk (by omega), ?_⟩
          rw [importRows, importRow_bad hbad]
      | false =>
          have hrest : ∃ r ∈ rest, badRowB r = true := by
            rcases h with ⟨r, hr, hrb⟩
            rcases List.mem_cons.mp hr with rfl | hr2
            · rw [hbad] at hrb
              cases hrb
            · exact ⟨r, hr2, hrb⟩
          rcases ih (start + 1) hrest with ⟨j, hj, hjb, hjmin, herr⟩
          have hsucc : j + 1 < (row :: rest).length := by
            simp only [List.length_cons]
            omega
          refine ⟨j + 1, hsucc, ?_, ?_, ?_⟩
          · simpa using hjb
          · intro k hk
            cases k with
            | zero => simpa using hbad
            | succ k2 =>
                have hk2 : k2 < j := by omega
                simpa using hjmin k2 hk2
          · obtain ⟨op, hok⟩ := @importRow_good today now start row hbad
            rw [importRows, hok, herr]
            have harith : start + 1 + j + 2 = start + (j + 1) + 2 := by omega
            rw [harith]

/-- C2: if any row of a CSV batch has a sequence-number or lots field that
fails integer parsing, the import aborts at the first such row with the
error naming that row's 1-based position plus one (for the header line),
and the operations list is left exactly as it was — zero records are
merged. -/
theorem claim_C2 :
    ∀ (ops : List Operation) (rows : List Row) (today : String) (now : Int),
      (∃ r ∈ rows, badRowB r = true) →
      ∃ j, ∃ hj : j < rows.length,
        badRowB (rows.get ⟨j, hj⟩) = true ∧
        (∀ k (hk : k < j), badRowB (rows.get ⟨k, Nat.lt_trans hk hj⟩) = false) ∧
        importRows today now 0 rows = Except.error (importErrMsg (j + 2)) ∧
        handleFileImport ops rows today now = ops := by
  intro ops rows today now h
  rcases importRows_first_bad today now rows 0 h with ⟨j, hj, hjb, hjmin, herr⟩
  rw [Nat.zero_add] at herr
  refine ⟨j, hj, hjb, hjmin, herr, ?_⟩
  rw [handleFileImport, herr]

/-- Rows for the C2 witness: a good first row, then a row whose lots field
is not numeric. -/
def c2rows : List Row :=
  [[("opnumber", "1"), ("lots", "2")], [("opnumber", "2"), ("lots", "abc")]]

/-- C2 witness: the bad second row aborts the whole import of `c2rows`
with the row-3 error (1-based position 2 plus the header line) and leaves
a nonempty prior state untouched. -/
theorem claim_C2_witness :
    ∃ j, ∃ hj : j < c2rows.length,
      badRowB (c2rows.get ⟨j, hj⟩) = true ∧
      (∀ k (hk : k < j), badRowB (c2rows.get ⟨k, Nat.lt_trans hk hj⟩) = false) ∧
      importRows "2026-01-01" 7 0 c2rows = Except.error (importErrMsg (j + 2)) ∧
      handleFileImport [c8a] c2rows "2026-01-01" 7 = [c8a] :=
  claim_C2 [c8a] c2rows "2026-01-01" 7
    ⟨[("opnumber", "2"), ("lots", "abc")], by
      simp [c2rows], of_decide_eq_true (by with_unfolding_all rfl)⟩

/-! ## Claim C5 -/

theorem intToString_ne_empty (n : Int) : intToString n ≠ "" := by
  rw [intToString]
  by_cases h : n < 0
  · rw [if_pos h]
    exact mk_ne_empty
  · rw [if_neg h]
    obtain ⟨c, r, hcr, _⟩ := natDigits_head_digit n.natAbs
    rw [hcr]
    exact mk_ne_empty

theorem rowFieldOr_of_some_ne {row : Row} {c s d : String}
    (h : rowField row c = some s) (hne : s ≠ "") : rowFieldOr row c d = s := by
  simp only [rowFieldOr, h]
  rw [if_neg hne]

theorem rowFieldOr_empty_dflt {row : Row} {c s : String}
    (h : rowField row c = some s) : rowFieldOr row c "" = s := by
  simp only [rowFieldOr, h]
  by_cases hs : s = ""
  · rw [if_pos hs, hs]
  · rw [if_neg hs]

/-- The status coercion of one imported row (the inline match of
`importRow`). -/
def importedStatus (row : Row) : Status :=
  match rowField row "status" with
  | some "Gain" => .Gain
  | some "Loss" => .Loss
  | some "Break-even" => .BreakEven
  | _ => .BreakEven

/-- The record produced by re-importing the export of `op` (identifier
and sequence fields recomputed, points/result/status coerced from the
file). -/
def importedOf (now : Int) (start : Nat) (op : Operation) :
    Operation where
  id := now + start
  asset := op.asset
  opNumber := op.opNumber
  side := op.side
  date := op.date
  lots := op.lots
  entryPrice := op.entryPrice
  exitPrice := op.exitPrice
  points := parseCurrencyField (rowField (opToRow op) "points")
  result := parseCurrencyField (rowField (opToRow op) "result")
  status := importedStatus (opToRow op)
  region := op.region
  struct := op.struct
  trigger := op.trigger

set_option maxHeartbeats 1600000 in
theorem importRow_export (today : String) (now : Int) (start : Nat)
    (op : Operation) (hd : op.date ≠ "") (he : FiniteDec op.entryPrice)
    (hx : FiniteDec op.exitPrice) :
    ∃ op', importRow today now start (opToRow op) = Except.ok op' ∧
      op'.asset = op.asset ∧ op'.side = op.side ∧ op'.date = op.date ∧
      op'.lots = op.lots ∧ op'.entryPrice = op.entryPrice ∧
      op'.exitPrice = op.exitPrice ∧ op'.region = op.region ∧
      op'.struct = op.struct ∧ op'.trigger = op.trigger := by
  have hopnum2 : rowFieldOr (opToRow op) "opNumber" "0" = intToString op.opNumber :=
    rowFieldOr_of_some_ne rfl (intToString_ne_empty _)
  have hlots2 : rowFieldOr (opToRow op) "lots" "0" = intToString op.lots :=
    rowFieldOr_of_some_ne rfl (intToString_ne_empty _)
  have hdate2 : rowFieldOr (opToRow op) "date" today = op.date :=
    rowFieldOr_of_some_ne rfl hd
  have hasset2 : rowFieldOr (opToRow op) "asset" "" = op.asset :=
    rowFieldOr_empty_dflt rfl
  have hregion2 : rowFieldOr (opToRow op) "region" "" = op.region :=
    rowFieldOr_empty_dflt rfl
  have hstruct2 : rowFieldOr (opToRow op) "structure" "" = op.struct :=
    rowFieldOr_empty_dflt rfl
  have htrigger2 : rowFieldOr (opToRow op) "trigger" "" = op.trigger :=
    rowFieldOr_empty_dflt rfl
  have hentry2 : parseCurrencyField (rowField (opToRow op) "entryPrice")
      = op.entryPrice := by
    have h1 : rowField (opToRow op) "entryPrice" = some (ratToString op.entryPrice) := rfl
    rw [h1]
    exact parseCurrency_ratToString _ he
  have hexit2 : parseCurrencyField (rowField (opToRow op) "exitPrice")
      = op.exitPrice := by
    have h1 : rowField (opToRow op) "exitPrice" = some (ratToString op.exitPrice) := rfl
    rw [h1]
    exact parseCurrency_ratToString _ hx
  have hside2 : (match rowField (opToRow op) "side" with
      | some "Buy" => Side.Buy
      | some "Sell" => Side.Sell
      | _ => Side.Buy) = op.side := by
    have h1 : rowField (opToRow op) "side" = some (sideStr op.side) := rfl
    rw [h1]
    cases op.side <;> rfl
  refine ⟨importedOf now start op,
    ?_, rfl, rfl, rfl, rfl, rfl, rfl, rfl, rfl, rfl⟩
  simp only [importRow, hopnum2, hlots2, parseIntJS_intToString]
  refine congrArg Except.ok ?_
  simp only [hasset2, hside2, hdate2, hentry2, hexit2, hregion2, hstruct2,
    htrigger2]
  rfl

theorem importRows_export (today : String) (now : Int) :
    ∀ (ops : List Operation) (start : Nat),
      (∀ op ∈ ops, op.date ≠ "" ∧ FiniteDec op.entryPrice ∧
        FiniteDec op.exitPrice) →
      ∃ imported,
        importRows today now start (ops.map opToRow) = Except.ok imported ∧
        imported.length = ops.length ∧
        ∀ i (hi : i < imported.length) (hi2 : i < ops.length),
          (imported.get ⟨i, hi⟩).asset = (ops.get ⟨i, hi2⟩).asset ∧
          (imported.get ⟨i, hi⟩).side = (ops.get ⟨i, hi2⟩).side ∧
          (imported.get ⟨i, hi⟩).date = (ops.get ⟨i, hi2⟩).date ∧
          (imported.get ⟨i, hi⟩).lots = (ops.get ⟨i, hi2⟩).lots ∧
          (imported.get ⟨i, hi⟩).entryPrice = (ops.get ⟨i, hi2⟩).entryPrice ∧
          (imported.get ⟨i, hi⟩).exitPrice = (ops.get ⟨i, hi2⟩).exitPrice ∧
          (imported.get ⟨i, hi⟩).region = (ops.get ⟨i, hi2⟩).region ∧
          (imported.get ⟨i, hi⟩).struct = (ops.get ⟨i, hi2⟩).struct ∧
          (imported.get ⟨i, hi⟩).trigger = (ops.get ⟨i, hi2⟩).trigger := by
  intro ops
  induction ops with
  | nil =>
      intro start _
      exact ⟨[], rfl, rfl, fun i hi _ => absurd hi (by simp at hi)⟩
  | cons op rest ih =>
      intro start hcond
      obtain ⟨hd, he, hx⟩ := hcond op (by simp)
      obtain ⟨op', hok, hflds⟩ := importRow_export today now start op hd he hx
      obtain ⟨imported, hoks, hlen, hget⟩ := ih (start + 1)
        (fun o ho => hcond o (List.mem_cons_of_mem _ ho))
      refine ⟨op' :: imported, ?_, by simp [hlen], ?_⟩
      · simp only [List.map_cons, importRows, hok, hoks]
      · intro i hi hi2
        cases i with
        | zero => simpa using hflds
        | succ j =>
            have hj : j < imported.length := by
              simp only [List.length_cons] at hi
              omega
            have hj2 : j < rest.length := by
              simp only [List.length_cons] at hi2
              omega
            simpa using hget j hj hj2

/-- C5: exporting a record list to CSV and re-importing the produced file
succeeds and yields, record for record, the same asset, side, date, lots,
entry price, exit price, region, structure and trigger (identifiers and
sequence handling aside), provided each record has a nonempty date string
and prices with finite decimal expansions (which is what the runtime
number-to-string conversion produces). -/
theorem claim_C5 :
    ∀ (ops : List Operation) (today : String) (now : Int),
      (∀ op ∈ ops, op.date ≠ "" ∧ FiniteDec op.entryPrice ∧
        FiniteDec op.exitPrice) →
      ∃ imported,
        importRows today now 0 (exportToCSV ops) = Except.ok imported ∧
        imported.length = ops.length ∧
        ∀ i (hi : i < imported.length) (hi2 : i < ops.length),
          (imported.get ⟨i, hi⟩).asset = (ops.get ⟨i, hi2⟩).asset ∧
          (imported.get ⟨i, hi⟩).side = (ops.get ⟨i, hi2⟩).side ∧
          (imported.get ⟨i, hi⟩).date = (ops.get ⟨i, hi2⟩).date ∧
          (imported.get ⟨i, hi⟩).lots = (ops.get ⟨i, hi2⟩).lots ∧
          (imported.get ⟨i, hi⟩).entryPrice = (ops.get ⟨i, hi2⟩).entryPrice ∧
          (imported.get ⟨i, hi⟩).exitPrice = (ops.get ⟨i, hi2⟩).exitPrice ∧
          (imported.get ⟨i, hi⟩).region = (ops.get ⟨i, hi2⟩).region ∧
          (imported.get ⟨i, hi⟩).struct = (ops.get ⟨i, hi2⟩).struct ∧
          (imported.get ⟨i, hi⟩).trigger = (ops.get ⟨i, hi2⟩).trigger := by
  intro ops today now hcond
  exact importRows_export today now ops 0 hcond

/-- A record with non-integer prices for the C5 witness. -/
def c5op : Operation :=
  { id := 3, asset := "WDOFUT", opNumber := 1, side := .Sell,
    date := "2026-02-03", lots := 2, entryPrice := 5481.5,
    exitPrice := 5479.25, points := 2.25, result := 45,
    status := .Gain, region := "Cara", struct := "A-B-C",
    trigger := "Cadeado" }

/-- C5 witness: the round trip applied to a concrete one-record list. -/
theorem claim_C5_witness :
    ∃ imported,
      importRows "2026-02-04" 9 0 (exportToCSV [c5op]) = Except.ok imported ∧
      imported.length = [c5op].length ∧
      ∀ i (hi : i < imported.length) (hi2 : i < [c5op].length),
        (imported.get ⟨i, hi⟩).asset = ([c5op].get ⟨i, hi2⟩).asset ∧
        (imported.get ⟨i, hi⟩).side = ([c5op].get ⟨i, hi2⟩).side ∧
        (imported.get ⟨i, hi⟩).date = ([c5op].get ⟨i, hi2⟩).date ∧
        (imported.get ⟨i, hi⟩).lots = ([c5op].get ⟨i, hi2⟩).lots ∧
        (imported.get ⟨i, hi⟩).entryPrice = ([c5op].get ⟨i, hi2⟩).entryPrice ∧
        (imported.get ⟨i, hi⟩).exitPrice = ([c5op].get ⟨i, hi2⟩).exitPrice ∧
        (imported.get ⟨i, hi⟩).region = ([c5op].get ⟨i, hi2⟩).region ∧
        (imported.get ⟨i, hi⟩).struct = ([c5op].get ⟨i, hi2⟩).struct ∧
        (imported.get ⟨i, hi⟩).trigger = ([c5op].get ⟨i, hi2⟩).trigger :=
  claim_C5 [c5op] "2026-02-04" 9 (fun op h => by
    rcases List.mem_singleton.mp h with rfl
    refine ⟨by with_unfolding_all decide, ?_, ?_⟩
    · exact of_decide_eq_true (by with_unfolding_all rfl)
    · exact of_decide_eq_true (by with_unfolding_all rfl))
